import Mathlib

/-!
Verification development for the youvalidateme JSON-schema server
(source: youvalidateme.go, newest revision "version 4").

The server keeps a cache (the Schema Store) mapping schema file names to
compiled validators, loads schemas from a directory at startup, reloads
them on file-system change events, accepts uploads, validates request
documents against cached schemas, and aggregates per-path statistics.

The schema-compilation capability (gojsonschema) is external to the
program; it is modelled as an abstract `Capability` record, so every
theorem below holds for all behaviours of the external library.
The handlers, the path sanitising helpers and the statistics update are
transcribed from the Go source; machine side effects (file reads and
writes under the schemas directory) are modelled by explicit state
passing through `ServerState`.
-/

namespace YVM

/-- Raw bytes of a request body or of a file, as in Go `[]byte`. -/
abbrev Bytes := List Nat

/-- A schema file name (the key of the cache map and of the directory). -/
abbrev Name := String

/-- Opaque handle standing for a compiled `*gojsonschema.Schema` object. -/
abbrev Validator := Nat

/-! ### Association lists modelling Go maps -/

/-- Go map lookup `m[k]`: first binding wins (directory names are unique). -/
def alistGet {α β : Type} [DecidableEq α] (k : α) : List (α × β) → Option β
  | [] => none
  | (k', v) :: rest => if k' = k then some v else alistGet k rest

/-- Go map assignment `m[k] = v`: replace the binding in place, or append. -/
def alistSet {α β : Type} [DecidableEq α] (k : α) (v : β) :
    List (α × β) → List (α × β)
  | [] => [(k, v)]
  | (k', v') :: rest =>
    if k' = k then (k, v) :: rest else (k', v') :: alistSet k v rest

/-! ### Path helpers (filepath.Ext, filepath.Clean, filepath.Join)

The Go program only ever joins a directory with a single file-name
component; the helpers below implement the corresponding fragments of
Go's `path/filepath` on `/`-separated paths.
-/

/-- `strings.Split(s, "/")`, via an accumulator over the characters. -/
def splitSlashAux : List Char → List Char → List String
  | cur, [] => [⟨cur.reverse⟩]
  | cur, c :: rest =>
    if c = '/' then (⟨cur.reverse⟩ : String) :: splitSlashAux [] rest
    else splitSlashAux (c :: cur) rest

def splitSlash (s : String) : List String := splitSlashAux [] s.data

/-- The final `/`-separated element of a path. -/
def lastComponent (s : String) : String := (splitSlash s).getLastD ""

/-- On the reversed characters of a component: the extension (suffix from
the final dot, inclusive), still reversed; `none` when there is no dot. -/
def extRevChars : List Char → Option (List Char)
  | [] => none
  | c :: rest =>
    if c = '.' then some [c] else (extRevChars rest).map (fun l => c :: l)

/-- Go `filepath.Ext`: suffix of the last component beginning at its final
dot, or `""` when the last component has no dot. -/
def pathExt (s : String) : String :=
  match extRevChars (lastComponent s).data.reverse with
  | none => ""
  | some l => ⟨l.reverse⟩

/-- Go `filepath.Base` for the paths delivered by the watcher
(`dir/name`): the final component. -/
def pathBase (s : String) : String := lastComponent s

/-- Component processing of Go `filepath.Clean`: drop empty and `.`
components, let `..` pop the previous component (at the root `..` is
dropped for absolute paths and kept for relative ones). -/
def cleanParts (isAbs : Bool) : List String → List String → List String
  | acc, [] => acc.reverse
  | acc, p :: rest =>
    if p = "" ∨ p = "." then cleanParts isAbs acc rest
    else if p = ".." then
      match acc with
      | [] => if isAbs then cleanParts isAbs [] rest
              else cleanParts isAbs [".."] rest
      | q :: acc' =>
        if q = ".." then cleanParts isAbs (".." :: acc) rest
        else cleanParts isAbs acc' rest
    else cleanParts isAbs (p :: acc) rest

/-- Whether a path is absolute (Go `filepath.IsAbs` on Unix). -/
def pathIsAbs (p : String) : Bool :=
  match p.data with
  | '/' :: _ => true
  | _ => false

def joinWithSlash : List String → String
  | [] => ""
  | [p] => p
  | p :: rest => p ++ "/" ++ joinWithSlash rest

/-- Go `filepath.Clean` on `/`-separated paths. -/
def cleanPath (p : String) : String :=
  let isAbs := pathIsAbs p
  let parts := cleanParts isAbs [] (splitSlash p)
  if isAbs then "/" ++ joinWithSlash parts
  else if parts.isEmpty then "." else joinWithSlash parts

/-- Go `filepath.Join(a, b)`: concatenate non-empty elements with `/` and
clean the result. -/
def filepathJoin (a b : String) : String :=
  if a = "" then
    if b = "" then "" else cleanPath b
  else if b = "" then cleanPath a
  else cleanPath (a ++ "/" ++ b)

/-- Go `strings.HasPrefix`. -/
def strIsPrefixOf (p s : String) : Bool := List.isPrefixOf p.data s.data

/-! ### sanitizeFilename and safePath (part_000 lines 244-259) -/

/-- The character class `[\w\-.]` of `sanitizeFilename`'s regexp:
ASCII letters, digits, `_`, `-`, `.`. -/
def allowedChar (c : Char) : Bool :=
  c.isAlphanum || c = '_' || c = '-' || c = '.'

/-- `sanitizeFilename`: delete every character outside `[\w\-.]`. -/
def sanitizeFilename (s : String) : String := ⟨s.data.filter allowedChar⟩

/-- `safePath(base, name)`: reject names that sanitising would change,
join, and reject results that do not stay under `Clean(base) + "/"`. -/
def safePath (base name : String) : Except String String :=
  if sanitizeFilename name ≠ name then .error "unsafe filename"
  else
    let fullPath := filepathJoin base name
    if strIsPrefixOf (cleanPath base ++ "/") fullPath then .ok fullPath
    else .error "invalid file path"

/-! ### The external validator capability (gojsonschema) -/

/-- The black-box operations the program takes from its collaborator
libraries: JSON parsing (`json.Unmarshal`), validation of candidate
schema bytes against the draft-07 meta-schema (`gojsonschema.Validate`
with `metaSchemaLoader`), schema compilation (`gojsonschema.NewSchema`,
`none` on compile error, e.g. an unresolvable `$ref`), and running a
compiled validator over a document (`Result.Valid()`). -/
structure Capability where
  jsonParses : Bytes → Bool
  metaValid : Bytes → Bool
  newSchema : Bytes → Option Validator
  validate : Validator → Bytes → Bool

/-! ### Server state -/

/-- Per-path counters (part_000 lines 42-46), Go `int` fields. -/
structure PathStats where
  requests : Int
  passes : Int
  fails : Int
  deriving DecidableEq, Repr

/-- The schema cache. A binding to `none` models a map entry holding a
nil `*gojsonschema.Schema` pointer; absence of a binding models a miss. -/
abbrev Cache := List (Name × Option Validator)

/-- The contents of the schemas directory: file name to bytes. -/
abbrev Disk := List (Name × Bytes)

abbrev StatsMap := List (String × PathStats)

/-- The mutable state of the process: the schemas directory, the schema
cache, and the statistics map. -/
structure ServerState where
  disk : Disk
  cache : Cache
  stats : StatsMap
  deriving DecidableEq, Repr

/-! ### loadSchema (part_000 lines 261-282)

`loadSchema` reads the file at `path` (its current content is passed in
as `content`), requires a `.json` extension, validates the content
against the meta-schema (returning an error when invalid), and then
calls `gojsonschema.NewSchema`.  The final lines of the Go function are
`schema, err := gojsonschema.NewSchema(schemaLoader); return schema, nil`:
the compile error is discarded and a nil schema pointer is returned with
a nil error, which the model renders as `.ok none`. -/
def loadSchema (cap : Capability) (path : String) (content : Bytes) :
    Except String (Option Validator) :=
  if pathExt path ≠ ".json" then .error "file extension must be .json"
  else if cap.metaValid content then .ok (cap.newSchema content)
  else .error "invalid schema"

/-- `if filepath.Ext(schemaFile) != ".json" { schemaFile += ".json" }`,
shared by the validate, get-schema and upload handlers. -/
def withJsonExt (s : String) : String :=
  if pathExt s ≠ ".json" then s ++ ".json" else s

/-! ### updateStats (part_000 lines 403-417) -/

/-- Look up or create the counters for `path`, then increment `Requests`
and one of `Passes`/`Fails`. -/
def updateStats (stats : StatsMap) (path : String) (passed : Bool) :
    StatsMap :=
  let cur := (alistGet path stats).getD ⟨0, 0, 0⟩
  let next : PathStats :=
    { requests := cur.requests + 1
      passes := if passed then cur.passes + 1 else cur.passes
      fails := if passed then cur.fails else cur.fails + 1 }
  alistSet path next stats

/-! ### validateHandler (part_000 lines 346-401) -/

/-- Outcomes of the validate handler. `panicNilValidator` marks the run
in which the cache binding holds a nil schema pointer: the handler calls
`schema.Validate(documentLoader)` on it, dereferencing nil. -/
inductive ValidateOutcome where
  | notFound
  | badJson
  | panicNilValidator
  | passed
  | failed
  deriving DecidableEq, Repr

/-- POST `/validate/{schema}`: append `.json` when missing, look the name
up in the cache (under `cacheMutex.RLock`), 404 on a miss, parse the
body as JSON, run the compiled validator, record statistics keyed by the
request URL path, and answer pass or fail. -/
def validateHandler (cap : Capability) (s : ServerState)
    (schemaVar : String) (body : Bytes) : ValidateOutcome × ServerState :=
  let schemaFile := withJsonExt schemaVar
  match alistGet schemaFile s.cache with
  | none => (.notFound, s)
  | some vOpt =>
    if cap.jsonParses body then
      match vOpt with
      | none => (.panicNilValidator, s)
      | some v =>
        let ok := cap.validate v body
        let stats' := updateStats s.stats ("/validate/" ++ schemaVar) ok
        ((if ok then .passed else .failed), { s with stats := stats' })
    else (.badJson, s)

/-! ### uploadSchemaHandler (part_000 lines 465-547) -/

/-- Maximum upload size (part_000 line 25): 2 MiB. -/
def maxUploadSize : Int := 2 * 1024 * 1024

inductive UploadOutcome where
  | forbidden
  | tooLarge
  | invalidJson
  | nameRejected (msg : String)
  | metaInvalid
  | saveFailed
  | loadFailed
  | success
  deriving DecidableEq, Repr

/-- POST `/schema/{schema}`.  Gate order as in the source: uploads
enabled; declared `r.ContentLength` within `maxUploadSize`; body parses
as JSON; name (with `.json` appended when missing) passes `safePath`;
body validates against the meta-schema; bytes written to disk (`writeOk`
models the fallible `ioutil.WriteFile`); finally, under
`cacheMutex.Lock()`, `cache[schemaFile], err = loadSchema(schemaPath)` —
the map entry is assigned in both the success and the error case of
`loadSchema`, a nil schema being stored when it errs. -/
def uploadSchemaHandler (cap : Capability) (allowUploads : Bool)
    (dir : String) (s : ServerState) (schemaVar : String)
    (contentLength : Int) (body : Bytes) (writeOk : Bool) :
    UploadOutcome × ServerState :=
  if allowUploads = false then (.forbidden, s)
  else if maxUploadSize < contentLength then (.tooLarge, s)
  else if cap.jsonParses body = false then (.invalidJson, s)
  else
    let schemaFile := withJsonExt schemaVar
    match safePath dir schemaFile with
    | .error e => (.nameRejected e, s)
    | .ok schemaPath =>
      if cap.metaValid body = false then (.metaInvalid, s)
      else if writeOk = false then (.saveFailed, s)
      else
        let disk' := alistSet schemaFile body s.disk
        match loadSchema cap schemaPath body with
        | .ok v =>
          (.success, { s with disk := disk', cache := alistSet schemaFile v s.cache })
        | .error _ =>
          (.loadFailed, { s with disk := disk', cache := alistSet schemaFile none s.cache })

/-! ### watchSchemas event step (part_000 lines 317-338)

One delivered Write/Create event for the file `fname` inside the watched
directory, whose content at read time is `content`.  `loadSchema` runs
before the lock; on its error the event is skipped (`continue`) and the
cache is untouched; on success the entry is swapped in under the lock. -/
def watchStep (cap : Capability) (cache : Cache) (fname : Name)
    (content : Bytes) : Cache :=
  if pathExt fname = ".json" then
    match loadSchema cap fname content with
    | .error _ => cache
    | .ok v => alistSet fname v cache
  else cache

/-- The watcher step lifted to the whole server state: it only ever
touches the cache (the handler body contains no statistics or disk
operation). -/
def watchStepS (cap : Capability) (s : ServerState) (fname : Name)
    (content : Bytes) : ServerState :=
  { s with cache := watchStep cap s.cache fname content }

/-! ### loadSchemas startup scan (part_000 lines 284-303) -/

/-- Iterate the directory listing; for each `.json` file run `loadSchema`
on `Join(dir, name)`, skipping (not aborting) files it rejects. -/
def loadSchemasScan (cap : Capability) (dir : String) :
    Disk → Cache → Cache
  | [], cache => cache
  | (fname, content) :: rest, cache =>
    loadSchemasScan cap dir rest
      (if pathExt fname = ".json" then
        match loadSchema cap (filepathJoin dir fname) content with
        | .error _ => cache
        | .ok v => alistSet fname v cache
      else cache)

/-! ### listSchemasHandler (part_000 lines 549-595) -/

/-- GET `/schemas`: list the names of the `.json` files present in the
schemas directory at request time (the cache is not consulted). -/
def listSchemasHandler (disk : Disk) : List Name :=
  (disk.map Prod.fst).filter (fun f => pathExt f == ".json")

/-! ### Route table of main (part_000 lines 654-659) -/

inductive HttpMethod where
  | GET
  | POST
  deriving DecidableEq, Repr

/-- The five handler registrations of `main`. -/
def mainRoutes : List (HttpMethod × String) :=
  [ (.POST, "/validate/{schema}")
  , (.GET, "/stats")
  , (.GET, "/schema/{schema}")
  , (.POST, "/schema/{schema}")
  , (.GET, "/schemas") ]

/-! ### Statistics invariants -/

/-- Every stored counter triple satisfies `requests = passes + fails`
and all three counters are non-negative. -/
def statsWF (m : StatsMap) : Prop :=
  ∀ p st, alistGet p m = some st →
    st.requests = st.passes + st.fails ∧
    0 ≤ st.requests ∧ 0 ≤ st.passes ∧ 0 ≤ st.fails

/-- The counters of `p`, defaulting to zero when `p` has no entry yet. -/
def statsGetD (p : String) (m : StatsMap) : PathStats :=
  (alistGet p m).getD ⟨0, 0, 0⟩

/-- Pointwise ordering of statistics maps: no counter of any key shrinks. -/
def statsLE (m m' : StatsMap) : Prop :=
  ∀ p, (statsGetD p m).requests ≤ (statsGetD p m').requests ∧
       (statsGetD p m).passes ≤ (statsGetD p m').passes ∧
       (statsGetD p m).fails ≤ (statsGetD p m').fails

/-- A sequence of `updateStats` calls, as performed by successive
validate requests over the life of the process. -/
def recordSeq (ops : List (String × Bool)) (m : StatsMap) : StatsMap :=
  ops.foldl (fun acc op => updateStats acc op.1 op.2) m

/-! ### Lock-usage traces of the three cache-writing code paths

To state the Store lock discipline, each writer path of the source is
rendered as the sequence of coarse actions it performs, in program
order, with explicit lock and unlock markers for `cacheMutex.Lock()` /
`cacheMutex.Unlock()`. -/

inductive StoreAction where
  | lockExcl
  | unlockExcl
  | mapWrite
  | diskRead
  | diskWrite
  | compileSchema
  | metaValidate
  deriving DecidableEq, Repr

/-- Actions of `loadSchema` (part_000 lines 261-282): read the file and
meta-validate it (`gojsonschema.Validate` on a file reference loader),
then read it again and compile it (`gojsonschema.NewSchema`). -/
def loadSchemaTrace : List StoreAction :=
  [.diskRead, .metaValidate, .diskRead, .compileSchema]

/-- `watchSchemas` handling one event, success path (lines 319-333):
`loadSchema` first, then `Lock; cache[name] = schema; Unlock`. -/
def watchReloadTrace : List StoreAction :=
  loadSchemaTrace ++ [.lockExcl, .mapWrite, .unlockExcl]

/-- `loadSchemas` startup scan, per-file success path (lines 290-301):
`loadSchema` first, then `Lock; cache[name] = schema; Unlock`. -/
def scanLoadTrace : List StoreAction :=
  loadSchemaTrace ++ [.lockExcl, .mapWrite, .unlockExcl]

/-- `uploadSchemaHandler` success path (lines 506-542): meta-validate
the body, write the file, then
`Lock; cache[schemaFile], err = loadSchema(schemaPath); Unlock` —
`loadSchema` runs between the lock and unlock calls. -/
def uploadCommitTrace : List StoreAction :=
  [.metaValidate, .diskWrite, .lockExcl] ++ loadSchemaTrace ++
    [.mapWrite, .unlockExcl]

/-- The actions performed while the exclusive lock is held. -/
def heldActions : List StoreAction → Bool → List StoreAction
  | [], _ => []
  | a :: rest, held =>
    match a with
    | .lockExcl => heldActions rest true
    | .unlockExcl => heldActions rest false
    | _ => if held then a :: heldActions rest held else heldActions rest held

/-- The lock discipline claimed by the spec: while exclusive access is
held, the only action is the map-entry swap. -/
def lockDisciplineOK (t : List StoreAction) : Bool :=
  (heldActions t false).all (fun a => a == .mapWrite)

/-! ### Concrete scenario used by the counterexample evaluations

A capability for which every byte string parses as JSON and passes the
meta-schema, while `gojsonschema.NewSchema` fails on `badBytes` (as it
concretely does on a schema that passes the draft-07 meta-schema but
contains, e.g., an unresolvable remote `$ref`). -/
def goodBytes : Bytes := [103]

def badBytes : Bytes := [98]

def demoCap : Capability :=
  { jsonParses := fun _ => true
    metaValid := fun _ => true
    newSchema := fun bs => if bs = badBytes then none else some 0
    validate := fun _ _ => true }

/-- A capability whose meta-schema validation rejects every byte string. -/
def capMetaFail : Capability :=
  { jsonParses := fun _ => true
    metaValid := fun _ => false
    newSchema := fun _ => some 0
    validate := fun _ _ => true }

/-- A fresh server: empty directory, empty cache, empty statistics. -/
def state0 : ServerState := ⟨[], [], []⟩

/-- State after a successful upload of `goodBytes` under the name `s`. -/
def stateAfterGood : ServerState :=
  (uploadSchemaHandler demoCap true "/schemas" state0 "s" 10 goodBytes true).2

/-- State after the subsequent upload of `badBytes` under the same name. -/
def stateAfterBad : ServerState :=
  (uploadSchemaHandler demoCap true "/schemas" stateAfterGood "s" 10 badBytes true).2

/-! ## Helper lemmas -/

theorem alistGet_set_self {α β : Type} [DecidableEq α] (k : α) (v : β)
    (m : List (α × β)) : alistGet k (alistSet k v m) = some v := by
  induction m with
  | nil => simp [alistGet, alistSet]
  | cons hd tl ih =>
    obtain ⟨k', v'⟩ := hd
    by_cases h : k' = k
    · simp [alistGet, alistSet, h]
    · simp [alistGet, alistSet, h, ih]

theorem alistGet_set_ne {α β : Type} [DecidableEq α] {q k : α} (h : q ≠ k)
    (v : β) (m : List (α × β)) :
    alistGet q (alistSet k v m) = alistGet q m := by
  have h' : ¬ k = q := fun he => h he.symm
  induction m with
  | nil => simp [alistGet, alistSet, h']
  | cons hd tl ih =>
    obtain ⟨k', v'⟩ := hd
    by_cases hk : k' = k
    · subst hk
      simp [alistGet, alistSet, h']
    · simp [alistGet, alistSet, hk, ih]

theorem alistSet_set {α β : Type} [DecidableEq α] (k : α) (v w : β)
    (m : List (α × β)) : alistSet k v (alistSet k w m) = alistSet k v m := by
  induction m with
  | nil => simp [alistSet]
  | cons hd tl ih =>
    obtain ⟨k', v'⟩ := hd
    by_cases h : k' = k
    · simp [alistSet, h]
    · simp [alistSet, h, ih]

theorem loadSchema_ok_metaValid {cap : Capability} {p : String} {c : Bytes}
    {v : Option Validator} (h : loadSchema cap p c = .ok v) :
    cap.metaValid c = true := by
  unfold loadSchema at h
  split at h
  · simp at h
  · split at h
    · assumption
    · simp at h

theorem sanitizeFilename_ne {s : String} {c : Char} (hc : c ∈ s.data)
    (hbad : allowedChar c = false) : sanitizeFilename s ≠ s := by
  intro he
  have hdata : s.data.filter allowedChar = s.data := congrArg String.data he
  rw [← hdata] at hc
  have h2 : allowedChar c = true := List.of_mem_filter hc
  rw [hbad] at h2
  simp at h2

theorem mem_withJsonExt {s : String} {c : Char} (h : c ∈ s.data) :
    c ∈ (withJsonExt s).data := by
  unfold withJsonExt
  split
  · show c ∈ (s ++ ".json").data
    have : (s ++ ".json").data = s.data ++ (".json" : String).data := rfl
    rw [this]
    exact List.mem_append_left _ h
  · exact h

theorem statsWF_nil : statsWF [] := by
  intro p st h
  simp [alistGet] at h

theorem statsWF_update {m : StatsMap} (hm : statsWF m) (p : String) (b : Bool) :
    statsWF (updateStats m p b) := by
  intro q st hq
  simp only [updateStats] at hq
  by_cases hqp : q = p
  · subst hqp
    rw [alistGet_set_self] at hq
    injection hq with hq
    subst hq
    cases hg : alistGet q m with
    | none => cases b <;> simp [hg]
    | some c =>
      obtain ⟨h1, h2, h3, h4⟩ := hm q c hg
      cases b <;> simp [hg] <;> omega
  · rw [alistGet_set_ne hqp] at hq
    exact hm q st hq

theorem statsLE_update (m : StatsMap) (p : String) (b : Bool) :
    statsLE m (updateStats m p b) := by
  intro q
  simp only [statsGetD, updateStats]
  by_cases hqp : q = p
  · subst hqp
    rw [alistGet_set_self]
    cases hg : alistGet q m with
    | none => cases b <;> simp [hg]
    | some c => cases b <;> simp [hg]
  · rw [alistGet_set_ne hqp]
    exact ⟨le_refl _, le_refl _, le_refl _⟩

theorem statsWF_recordSeq (ops : List (String × Bool)) :
    ∀ m, statsWF m → statsWF (recordSeq ops m) := by
  induction ops with
  | nil => intro m hm; exact hm
  | cons op rest ih =>
    intro m hm
    exact ih _ (statsWF_update hm op.1 op.2)

theorem scan_get_of_bad (cap : Capability) (dir : String) (n : Name) :
    ∀ (d : Disk) (cache : Cache),
      (∀ b', (n, b') ∈ d → cap.metaValid b' = false) →
      alistGet n (loadSchemasScan cap dir d cache) = alistGet n cache := by
  intro d
  induction d with
  | nil => intro cache _; rfl
  | cons hd tl ih =>
    intro cache h
    obtain ⟨f, c⟩ := hd
    have htl : ∀ b', (n, b') ∈ tl → cap.metaValid b' = false :=
      fun b' hb => h b' (List.mem_cons_of_mem _ hb)
    by_cases hext : pathExt f = ".json"
    · cases hls : loadSchema cap (filepathJoin dir f) c with
      | error e => simpa [loadSchemasScan, hext, hls] using ih cache htl
      | ok v =>
        by_cases hfn : f = n
        · exfalso
          have hm : cap.metaValid c = true := loadSchema_ok_metaValid hls
          have hf : cap.metaValid c = false := by
            apply h c
            rw [hfn]
            exact List.mem_cons_self _ _
          rw [hf] at hm
          simp at hm
        · have hrec := ih (alistSet f v cache) htl
          rw [alistGet_set_ne (fun he => hfn he.symm)] at hrec
          simpa [loadSchemasScan, hext, hls] using hrec
    · simpa [loadSchemasScan, hext] using ih cache htl

/-! ## Claim theorems -/

/-- Claim C1 (code bug, evaluated at the failing input).  After a
successful upload of `goodBytes` for name `s`, the cache serves the
compiled good validator.  Uploading bytes that pass the meta-schema but
fail `gojsonschema.NewSchema` (`newSchema badBytes = none`) then
overwrites the good cache entry with a nil validator — and, because
`loadSchema` discards the `NewSchema` error, the handler even reports
success.  The claim (and the spec) say the last-known-good validator
keeps being served. -/
theorem c1_bad_ingestion_clobbers_good_entry :
    alistGet "s.json" stateAfterGood.cache = some (some 0) ∧
    demoCap.newSchema badBytes = none ∧
    (uploadSchemaHandler demoCap true "/schemas" stateAfterGood "s" 10 badBytes true).1
      = .success ∧
    alistGet "s.json" stateAfterBad.cache = some none := by decide

/-- Claim C2 (code bug, evaluated at the failing input).  After the bad
upload of `badBytes`, a Store lookup of `s.json` answers present with a
nil validator — a partially ingested, unusable entry — and a subsequent
validate request dereferences the nil schema pointer. -/
theorem c2_nil_validator_visible_to_reader :
    alistGet "s.json" stateAfterBad.cache = some none ∧
    (validateHandler demoCap stateAfterBad "s" [49]).1 = .panicNilValidator := by decide

/-- Claim C3 counterexample.  At this concrete input the capability's
compile (`newSchema`) fails on the uploaded bytes, yet the upload writes
the file to disk, mutates the Store (to a nil entry) and reports
success — refuting "if compilation of the schema bytes fails, ingestion
returns the compile error having performed no disk write and no Store
mutation". -/
theorem c3_counterexample :
    demoCap.newSchema badBytes = none ∧
    (uploadSchemaHandler demoCap true "/schemas" state0 "s" 10 badBytes true).1
      = .success ∧
    alistGet "s.json"
      (uploadSchemaHandler demoCap true "/schemas" state0 "s" 10 badBytes true).2.disk
      = some badBytes ∧
    alistGet "s.json"
      (uploadSchemaHandler demoCap true "/schemas" state0 "s" 10 badBytes true).2.cache
      = some none := by decide

/-- Claim C3 as amended.  The gate that runs before any persistence is
the meta-schema validation: whenever it rejects the uploaded bytes the
handler performs no disk write and no Store mutation, and (when the
earlier gates pass) answers with the validation error.  Full compilation
(`NewSchema`) only happens after the disk write. -/
theorem c3_meta_gate_before_persist (cap : Capability) (allow : Bool)
    (dir : String) (s : ServerState) (var : String) (cl : Int) (body : Bytes)
    (wk : Bool) (hmeta : cap.metaValid body = false) :
    (uploadSchemaHandler cap allow dir s var cl body wk).2 = s ∧
    (allow = true → ¬ maxUploadSize < cl → cap.jsonParses body = true →
      ∀ p, safePath dir (withJsonExt var) = .ok p →
        (uploadSchemaHandler cap allow dir s var cl body wk).1 = .metaInvalid) := by
  constructor
  · by_cases h1 : allow = false
    · simp [uploadSchemaHandler, h1]
    · by_cases h2 : maxUploadSize < cl
      · simp [uploadSchemaHandler, h1, h2]
      · by_cases h3 : cap.jsonParses body = false
        · simp [uploadSchemaHandler, h1, h2, h3]
        · cases hsp : safePath dir (withJsonExt var) with
          | error e => simp [uploadSchemaHandler, h1, h2, h3, hsp]
          | ok p => simp [uploadSchemaHandler, h1, h2, h3, hsp, hmeta]
  · intro ha hcl hj p hsp
    simp [uploadSchemaHandler, ha, hcl, hj, hsp, hmeta]

/-- Witness for the amended C3 theorem at a concrete input. -/
theorem c3_meta_gate_before_persist_witness :
    (uploadSchemaHandler capMetaFail true "/schemas" state0 "x" 5 goodBytes true).2
      = state0 ∧
    (uploadSchemaHandler capMetaFail true "/schemas" state0 "x" 5 goodBytes true).1
      = .metaInvalid :=
  ⟨(c3_meta_gate_before_persist capMetaFail true "/schemas" state0 "x" 5 goodBytes
      true rfl).1,
   (c3_meta_gate_before_persist capMetaFail true "/schemas" state0 "x" 5 goodBytes
      true rfl).2 rfl (by decide) rfl "/schemas/x.json" (by rfl)⟩

/-- Claim C4 counterexample.  The upload handler's commit runs
`loadSchema` — two file reads, a meta-validation and a compilation —
between `cacheMutex.Lock()` and `cacheMutex.Unlock()`, so its trace
violates the claimed "map-entry swap only" lock discipline. -/
theorem c4_counterexample : lockDisciplineOK uploadCommitTrace = false := by decide

/-- Claim C4 as amended.  The watcher reload and the startup scan hold
the exclusive lock only for the map-entry swap, but the upload path
performs the whole of `loadSchema` (disk I/O, meta-validation,
compilation) plus the swap while holding the exclusive lock. -/
theorem c4_lock_discipline :
    lockDisciplineOK watchReloadTrace = true ∧
    lockDisciplineOK scanLoadTrace = true ∧
    heldActions uploadCommitTrace false
      = loadSchemaTrace ++ [.mapWrite] := by decide

/-- Claim C5: a target name containing a character outside the
`[\w\-.]` allow-list (which covers every name containing a path
traversal `../`, since `/` is outside the list), or whose joined path
escapes `Clean(dir) + "/"`, makes the upload perform no disk write and
no Store mutation, and — once the gates before the name check pass —
answer with the name-rejection error. -/
theorem c5_name_rejection (cap : Capability) (allow : Bool) (dir : String)
    (s : ServerState) (var : String) (cl : Int) (body : Bytes) (wk : Bool)
    (hbad : (∃ c ∈ var.data, allowedChar c = false) ∨
      (sanitizeFilename (withJsonExt var) = withJsonExt var ∧
        strIsPrefixOf (cleanPath dir ++ "/") (filepathJoin dir (withJsonExt var))
          = false)) :
    (uploadSchemaHandler cap allow dir s var cl body wk).2 = s ∧
    (allow = true → ¬ maxUploadSize < cl → cap.jsonParses body = true →
      ∃ e, (uploadSchemaHandler cap allow dir s var cl body wk).1
        = .nameRejected e) := by
  have hsp : ∃ e, safePath dir (withJsonExt var) = .error e := by
    rcases hbad with ⟨c, hc, hbadc⟩ | ⟨hsan, hpre⟩
    · refine ⟨"unsafe filename", ?_⟩
      have hne : sanitizeFilename (withJsonExt var) ≠ withJsonExt var :=
        sanitizeFilename_ne (mem_withJsonExt hc) hbadc
      simp [safePath, hne]
    · refine ⟨"invalid file path", ?_⟩
      simp [safePath, hsan, hpre]
  obtain ⟨e, he⟩ := hsp
  constructor
  · by_cases h1 : allow = false
    · simp [uploadSchemaHandler, h1]
    · by_cases h2 : maxUploadSize < cl
      · simp [uploadSchemaHandler, h1, h2]
      · by_cases h3 : cap.jsonParses body = false
        · simp [uploadSchemaHandler, h1, h2, h3]
        · simp [uploadSchemaHandler, h1, h2, h3, he]
  · intro ha hcl hj
    exact ⟨e, by simp [uploadSchemaHandler, ha, hcl, hj, he]⟩

/-- Witness for C5 at a concrete traversal name. -/
theorem c5_name_rejection_witness :
    (uploadSchemaHandler demoCap true "/schemas" state0 "../evil" 10 goodBytes
      true).2 = state0 ∧
    ∃ e, (uploadSchemaHandler demoCap true "/schemas" state0 "../evil" 10
      goodBytes true).1 = .nameRejected e :=
  ⟨(c5_name_rejection demoCap true "/schemas" state0 "../evil" 10 goodBytes true
      (Or.inl (by decide))).1,
   (c5_name_rejection demoCap true "/schemas" state0 "../evil" 10 goodBytes true
      (Or.inl (by decide))).2 rfl (by decide) rfl⟩

/-- Claim C6: starting from the empty statistics map, after any sequence
of `updateStats` calls every stored counter triple satisfies
`requests = passes + fails` with all counters non-negative, and one more
`updateStats` step never decreases any counter of any key. -/
theorem c6_stats_invariant (ops : List (String × Bool)) (p : String) (b : Bool) :
    statsWF (recordSeq ops []) ∧
    statsLE (recordSeq ops []) (updateStats (recordSeq ops []) p b) :=
  ⟨statsWF_recordSeq ops [] statsWF_nil, statsLE_update _ p b⟩

/-- Witness for C6 at a concrete run. -/
theorem c6_stats_invariant_witness :
    statsWF (recordSeq [("/validate/s", true)] []) ∧
    statsLE (recordSeq [("/validate/s", true)] [])
      (updateStats (recordSeq [("/validate/s", true)] []) "/validate/s" false) :=
  c6_stats_invariant [("/validate/s", true)] "/validate/s" false

/-- Claim C7 counterexample.  On a fresh server the only
document-validating handler answers not-found for every request — no
route lets a caller validate a document against request-supplied schema
bytes — and the one endpoint that does accept schema bytes (upload)
both persists them and mutates the Store, contradicting "compiles the
supplied schema on the fly ... never touches the Schema Store". -/
theorem c7_counterexample :
    (validateHandler demoCap state0 "person" [123]).1 = .notFound ∧
    alistGet "person.json"
      (uploadSchemaHandler demoCap true "/schemas" state0 "person" 10 goodBytes
        true).2.cache = some (some 0) ∧
    alistGet "person.json"
      (uploadSchemaHandler demoCap true "/schemas" state0 "person" 10 goodBytes
        true).2.disk = some goodBytes := by decide

/-- Claim C7 as amended.  The program provides no validate-inline
operation: every document validation resolves its schema from the Store
by name, and whenever the name is absent the validate handler answers
not-found and leaves the state unchanged, whatever the request body
holds. -/
theorem c7_no_inline_validation (cap : Capability) (s : ServerState)
    (var : String) (body : Bytes)
    (h : alistGet (withJsonExt var) s.cache = none) :
    (validateHandler cap s var body).1 = .notFound ∧
    (validateHandler cap s var body).2 = s := by
  unfold validateHandler
  simp [h]

/-- Witness for the amended C7 theorem at a concrete input. -/
theorem c7_no_inline_validation_witness :
    (validateHandler demoCap state0 "inline" [123]).1 = .notFound ∧
    (validateHandler demoCap state0 "inline" [123]).2 = state0 :=
  c7_no_inline_validation demoCap state0 "inline" [123] rfl

/-- Claim C8: re-running an upload with identical inputs reproduces the
same outcome and the same state (so a Store lookup after two ingestions
equals the lookup after one), the watcher reload step is likewise
idempotent, and neither ingestion path ever changes the statistics map. -/
theorem c8_ingestion_idempotent (cap : Capability) (allow : Bool)
    (dir : String) (s : ServerState) (var : String) (cl : Int) (body : Bytes)
    (wk : Bool) (fname : Name) (content : Bytes) :
    uploadSchemaHandler cap allow dir
        (uploadSchemaHandler cap allow dir s var cl body wk).2 var cl body wk
      = uploadSchemaHandler cap allow dir s var cl body wk ∧
    (uploadSchemaHandler cap allow dir s var cl body wk).2.stats = s.stats ∧
    watchStepS cap (watchStepS cap s fname content) fname content
      = watchStepS cap s fname content ∧
    (watchStepS cap s fname content).stats = s.stats := by
  refine ⟨?_, ?_, ?_, rfl⟩
  · by_cases h1 : allow = false
    · simp [uploadSchemaHandler, h1]
    · by_cases h2 : maxUploadSize < cl
      · simp [uploadSchemaHandler, h1, h2]
      · by_cases h3 : cap.jsonParses body = false
        · simp [uploadSchemaHandler, h1, h2, h3]
        · cases hsp : safePath dir (withJsonExt var) with
          | error e => simp [uploadSchemaHandler, h1, h2, h3, hsp]
          | ok p =>
            by_cases h4 : cap.metaValid body = false
            · simp [uploadSchemaHandler, h1, h2, h3, hsp, h4]
            · by_cases h5 : wk = false
              · simp [uploadSchemaHandler, h1, h2, h3, hsp, h4, h5]
              · cases hls : loadSchema cap p body with
                | ok v =>
                  simp [uploadSchemaHandler, h1, h2, h3, hsp, h4, h5, hls,
                    alistSet_set]
                | error e =>
                  simp [uploadSchemaHandler, h1, h2, h3, hsp, h4, h5, hls,
                    alistSet_set]
  · by_cases h1 : allow = false
    · simp [uploadSchemaHandler, h1]
    · by_cases h2 : maxUploadSize < cl
      · simp [uploadSchemaHandler, h1, h2]
      · by_cases h3 : cap.jsonParses body = false
        · simp [uploadSchemaHandler, h1, h2, h3]
        · cases hsp : safePath dir (withJsonExt var) with
          | error e => simp [uploadSchemaHandler, h1, h2, h3, hsp]
          | ok p =>
            by_cases h4 : cap.metaValid body = false
            · simp [uploadSchemaHandler, h1, h2, h3, hsp, h4]
            · by_cases h5 : wk = false
              · simp [uploadSchemaHandler, h1, h2, h3, hsp, h4, h5]
              · cases hls : loadSchema cap p body with
                | ok v => simp [uploadSchemaHandler, h1, h2, h3, hsp, h4, h5, hls]
                | error e => simp [uploadSchemaHandler, h1, h2, h3, hsp, h4, h5, hls]
  · unfold watchStepS watchStep
    by_cases hext : pathExt fname = ".json"
    · cases hls : loadSchema cap fname content with
      | error e => simp [hext, hls]
      | ok v => simp [hext, hls, alistSet_set]
    · simp [hext]

/-- Claim C9: a `.json` file that is on disk but fails the meta-schema
(so the startup scan skips it and the Store never holds it) still
appears in the schema listing, because `listSchemasHandler` enumerates
the directory, not the Store's keys. -/
theorem c9_listing_reflects_disk (cap : Capability) (dir : String) (d : Disk)
    (n : Name) (b : Bytes) (hext : pathExt n = ".json") (hmem : (n, b) ∈ d)
    (hbad : ∀ b', (n, b') ∈ d → cap.metaValid b' = false) :
    n ∈ listSchemasHandler d ∧
    alistGet n (loadSchemasScan cap dir d []) = none := by
  constructor
  · unfold listSchemasHandler
    refine List.mem_filter.mpr ⟨List.mem_map.mpr ⟨(n, b), hmem, rfl⟩, ?_⟩
    simp [hext]
  · rw [scan_get_of_bad cap dir n d [] hbad]
    rfl

/-- Witness for C9 on a concrete one-file directory. -/
theorem c9_listing_reflects_disk_witness :
    "bad.json" ∈ listSchemasHandler [("bad.json", [99])] ∧
    alistGet "bad.json"
      (loadSchemasScan capMetaFail "/schemas" [("bad.json", [99])] []) = none :=
  c9_listing_reflects_disk capMetaFail "/schemas" [("bad.json", [99])]
    "bad.json" [99] (by decide) (by decide) (fun _ _ => rfl)

/-- Claim C10: with uploads enabled, the upload answers too-large
exactly when the declared `Content-Length` exceeds `maxUploadSize`; the
body's actual size is never measured, so whenever the declared length
passes the gate (including the unknown length `-1`) and the later gates
pass, the entire body — whatever its size — ends up written to disk. -/
theorem c10_size_gate (cap : Capability) (dir : String) (s : ServerState)
    (var : String) (body : Bytes) (wk : Bool) (cl : Int) :
    ((uploadSchemaHandler cap true dir s var cl body wk).1 = .tooLarge ↔
      maxUploadSize < cl) ∧
    (¬ maxUploadSize < cl → cap.jsonParses body = true →
      cap.metaValid body = true → wk = true →
      ∀ p, safePath dir (withJsonExt var) = .ok p →
        alistGet (withJsonExt var)
          (uploadSchemaHandler cap true dir s var cl body wk).2.disk
          = some body) := by
  constructor
  · constructor
    · intro h
      by_contra hcl
      by_cases h3 : cap.jsonParses body = false
      · simp [uploadSchemaHandler, hcl, h3] at h
      · cases hsp : safePath dir (withJsonExt var) with
        | error e => simp [uploadSchemaHandler, hcl, h3, hsp] at h
        | ok p =>
          by_cases h4 : cap.metaValid body = false
          · simp [uploadSchemaHandler, hcl, h3, hsp, h4] at h
          · by_cases h5 : wk = false
            · simp [uploadSchemaHandler, hcl, h3, hsp, h4, h5] at h
            · cases hls : loadSchema cap p body with
              | ok v => simp [uploadSchemaHandler, hcl, h3, hsp, h4, h5, hls] at h
              | error e => simp [uploadSchemaHandler, hcl, h3, hsp, h4, h5, hls] at h
    · intro hcl
      simp [uploadSchemaHandler, hcl]
  · intro hcl hj hm hwk p hsp
    cases hls : loadSchema cap p body with
    | ok v =>
      simp [uploadSchemaHandler, hcl, hj, hm, hwk, hsp, hls, alistGet_set_self]
    | error e =>
      simp [uploadSchemaHandler, hcl, hj, hm, hwk, hsp, hls, alistGet_set_self]

/-- Witness for C10: an upload with unknown declared length `-1` passes
the size gate and its whole body reaches the disk. -/
theorem c10_size_gate_witness :
    ¬ ((uploadSchemaHandler demoCap true "/schemas" state0 "big" (-1) goodBytes
        true).1 = .tooLarge) ∧
    alistGet "big.json"
      (uploadSchemaHandler demoCap true "/schemas" state0 "big" (-1) goodBytes
        true).2.disk = some goodBytes :=
  ⟨fun h => absurd
      ((c10_size_gate demoCap "/schemas" state0 "big" goodBytes true (-1)).1.mp h)
      (by decide),
   (c10_size_gate demoCap "/schemas" state0 "big" goodBytes true (-1)).2
      (by decide) rfl rfl rfl "/schemas/big.json" (by rfl)⟩

end YVM
